/-
Verification of the AUR_bot repository's search, prompt, cache,
conversation and broadcast logic.

Shallow embedding of the Python sources:
  * `frontend/services/search_service.py`   (local keyword search)
  * `frontend/utils/synonyms.py`            (query expansion)
  * `frontend/services/prompts/prompt_manager.py` (prompt selection)
  * `llm.py`                                (response truncation)
  * `frontend/services/cache_service.py`    (response cache)
  * `frontend/services/conversation_service.py` (per-user contexts)
  * `admin.py`                              (broadcast handler)

Python strings are modelled as Lean `String` (a list of Unicode code
points, matching Python's `len`/slicing semantics on the data used by
the repository).  Python `float` scores are modelled as `ℚ`; for the
constants used by the code (0.3 + 0.05·n capped at 0.95, thresholds 0.7
and 999·0.8) the IEEE-double comparisons made by the code coincide with
the exact rational comparisons, so the model is faithful.  Python dicts
are modelled as insertion-ordered association lists.
-/
import Mathlib

set_option autoImplicit false
set_option linter.unusedVariables false

namespace AURBot

/-! ### Python string primitives -/

/-- Python `str.lower()` restricted to the alphabets occurring in the
repository's data: ASCII `A`-`Z` and Cyrillic `А`-`Я`, `Ё`. -/
def pyLowerChar (c : Char) : Char :=
  if 'A' ≤ c ∧ c ≤ 'Z' then Char.ofNat (c.toNat + 32)
  else if 'А' ≤ c ∧ c ≤ 'Я' then Char.ofNat (c.toNat + 32)
  else if c = 'Ё' then 'ё'
  else c

/-- Python `s.lower()`. -/
def pyLower (s : String) : String := ⟨s.data.map pyLowerChar⟩

/-- Does `pre` lead (start) the list `l`? -/
def leadsCL : List Char → List Char → Bool
  | [], _ => true
  | _ :: _, [] => false
  | a :: as, b :: bs => a == b && leadsCL as bs

/-- Substring containment on char lists (Python `needle in haystack`). -/
def subCL (needle : List Char) : List Char → Bool
  | [] => needle.isEmpty
  | c :: rest => leadsCL needle (c :: rest) || subCL needle rest

/-- Python `needle in haystack` on strings. -/
def pyIn (needle haystack : String) : Bool := subCL needle.data haystack.data

/-- Python whitespace characters (the ones `str.split`/`str.strip`
treat as separators). -/
def isPySpace (c : Char) : Bool :=
  c == ' ' || c == '\t' || c == '\n' || c == '\r' || c == '\x0b' || c == '\x0c'

/-- Helper for `pySplitWs`: accumulates the current word (reversed). -/
def splitWsAux : List Char → List Char → List (List Char)
  | [], acc => if acc.isEmpty then [] else [acc.reverse]
  | c :: rest, acc =>
    if isPySpace c then
      if acc.isEmpty then splitWsAux rest [] else acc.reverse :: splitWsAux rest []
    else splitWsAux rest (c :: acc)

/-- Python `s.split()` with no argument: split on whitespace runs,
discarding empty pieces. -/
def pySplitWs (s : String) : List String :=
  (splitWsAux s.data []).map (fun l => ⟨l⟩)

/-- Python `s.strip()` on char lists. -/
def pyStripCL (cs : List Char) : List Char :=
  ((cs.dropWhile isPySpace).reverse.dropWhile isPySpace).reverse

/-- Python `s.strip()`. -/
def pyStrip (s : String) : String := ⟨pyStripCL s.data⟩

/-- Helper for `pyRfindChar`: scan with current index and best hit. -/
def rfindCharAux (c : Char) : List Char → Nat → Int → Int
  | [], _, best => best
  | x :: rest, i, best => rfindCharAux c rest (i + 1) (if x == c then (i : Int) else best)

/-- Python `s.rfind(c)` for a single character: index of the last
occurrence, `-1` when absent. -/
def pyRfindChar (s : String) (c : Char) : Int := rfindCharAux c s.data 0 (-1)

/-- Python `s[:n]` for a nonnegative `n`. -/
def strTake (s : String) (n : Nat) : String := ⟨s.data.take n⟩

/-- Python `s.endswith(('.', '!', '?'))`. -/
def endsPunct (s : String) : Bool :=
  match s.data.getLast? with
  | some c => c == '.' || c == '!' || c == '?'
  | none => false

/-- Python `s.endswith(suf)`. -/
def strEndsWith (s suf : String) : Bool := leadsCL suf.data.reverse s.data.reverse

/-! ### Python dict primitives (insertion-ordered association lists) -/

/-- Python `d[k]` / `k in d`: the value at the first (unique) matching key. -/
def pyDictFind {α β : Type} [BEq α] (d : List (α × β)) (k : α) : Option β :=
  (d.find? (fun p => p.1 == k)).map Prod.snd

/-- Python `d[k] = v`: update in place when the key is present,
append otherwise. -/
def pyDictInsert {α β : Type} [BEq α] (d : List (α × β)) (k : α) (v : β) : List (α × β) :=
  if (d.find? (fun p => p.1 == k)).isSome then
    d.map (fun p => if p.1 == k then (k, v) else p)
  else d ++ [(k, v)]

/-- Python `del d[k]`. -/
def pyDictErase {α β : Type} [BEq α] (d : List (α × β)) (k : α) : List (α × β) :=
  d.eraseP (fun p => p.1 == k)

/-! ### Search layer (`frontend/services/search_service.py`) -/

/-- A catalog product, holding the fields read by `_search_local`
(`product.get('product', '')` etc.). -/
structure Product where
  product : String
  description : String
  short_description : String
  category : String
  benefits : List String
  composition : String
deriving DecidableEq, Repr

/-- The `searchable_fields` dict built for each product; `benefits` is
joined with spaces as in `' '.join(product.get('benefits', []))`. -/
def searchableFields (p : Product) : List (String × String) :=
  [("product", p.product),
   ("description", p.description),
   ("short_description", p.short_description),
   ("category", p.category),
   ("benefits", String.intercalate " " p.benefits),
   ("composition", p.composition)]

/-- Contribution of one field to `relevance_score`: empty fields are
skipped; any query term in the product-name field adds 10; each matching
term adds 3 in `description`/`benefits` and 1 elsewhere. -/
def fieldScore (queryTerms : List String) (fieldName fieldText : String) : Nat :=
  if fieldText = "" then 0
  else
    let t := pyLower fieldText
    let bonus :=
      if fieldName = "product" ∧ queryTerms.any (fun term => pyIn term t) then 10 else 0
    let nMatches := (queryTerms.filter (fun term => pyIn term t)).length
    let add :=
      if nMatches > 0 then
        if fieldName = "description" ∨ fieldName = "benefits" then nMatches * 3 else nMatches
      else 0
    bonus + add

/-- Source `relevance_score` accumulated over all searchable fields. -/
def relevanceScore (queryTerms : List String) (p : Product) : Nat :=
  ((searchableFields p).map (fun f => fieldScore queryTerms f.1 f.2)).sum

/-- Source `normalized_score = min(0.95, 0.3 + relevance_score * 0.05)`.
For integer `r` the double-precision computation in the source rounds to
the same side of every comparison made by the code (`> 0.7`, ordering of
distinct scores), so exact rationals are a faithful model. -/
def ratMin (a b : ℚ) : ℚ := if a ≤ b then a else b

/-- The sum `0.3 + relevance_score * 0.05` written over the common denominator
100 (so that the definition evaluates inside the kernel); see
`normScore_eq` for the `min (0.95) (0.3 + 0.05·r)` form. -/
def normScore (r : Nat) : ℚ := ratMin (mkRat 95 100) (mkRat (30 + 5 * (r : Int)) 100)

/-- The `SearchResult` dataclass. -/
structure SearchResult where
  product : Product
  score : ℚ
  relevance : String
deriving DecidableEq, Repr

/-- The result object appended by `_search_local` for a matching product. -/
def mkLocalResult (queryTerms : List String) (p : Product) : SearchResult :=
  let ns := normScore (relevanceScore queryTerms p)
  ⟨p, ns, if ns > mkRat 7 10 then "high" else "medium"⟩

/-- Descending order on scores, used by
`results.sort(key=lambda x: x.score, reverse=True)`. -/
def scoreGe (a b : SearchResult) : Prop := b.score ≤ a.score

instance : DecidableRel scoreGe := fun a b => inferInstanceAs (Decidable (b.score ≤ a.score))

instance : IsTotal SearchResult scoreGe := ⟨fun a b => le_total b.score a.score⟩

instance : IsTrans SearchResult scoreGe := ⟨fun _ _ _ h1 h2 => le_trans h2 h1⟩

/-- Source `SearchService._search_local` applied to an in-memory knowledge base:
score every product, keep positive scores, sort by score descending
(stably, as Python's sort), return the first `limit`. -/
def searchLocal (kb : List Product) (query : String) (limit : Nat) : List SearchResult :=
  let queryTerms := pySplitWs (pyLower query)
  let results := (kb.filter (fun p => 0 < relevanceScore queryTerms p)).map (mkLocalResult queryTerms)
  (List.insertionSort scoreGe results).take limit

/-! ### Synonym expansion (`frontend/utils/synonyms.py`) -/

def OMEGA_SYNONYMS : List String :=
  ["омега-3", "омега 3", "омега3", "omega", "omega-3", "omega 3", "omega3",
   "рыбий жир", "рыбьего жира", "рыбьим жиром", "рыбьему жиру",
   "пнжк", "полиненасыщенные жирные кислоты", "жирные кислоты",
   "эпк", "дгк", "epa", "dha"]

def MAGNESIUM_SYNONYMS : List String :=
  ["магний", "магния", "магнием", "магнию", "magnesium", "mg",
   "продукты с магнием", "содержащие магний", "с содержанием магния"]

def VITAMIN_C_SYNONYMS : List String :=
  ["витамин c", "витамин с", "vitamin c", "аскорбинка",
   "аскорбиновая кислота", "аскорбиновой кислоты"]

def COLLAGEN_SYNONYMS : List String :=
  ["коллаген", "коллагена", "коллагеном", "collagen",
   "для кожи", "для волос", "для ногтей", "для суставов",
   "гидролизованный коллаген", "морской коллаген"]

def PROBIOTICS_SYNONYMS : List String :=
  ["пробиотик", "пробиотики", "пробиотиков", "пробиотикам",
   "для кишечника", "для микрофлоры", "бактерии", "лактобактерии",
   "бифидобактерии", "для пищеварения"]

def IMMUNITY_SYNONYMS : List String :=
  ["иммунитет", "иммунитета", "иммунной системы",
   "противовирусное", "от вирусов", "защита", "для защиты",
   "укрепление иммунитета", "повышение иммунитета"]

/-- Source `SYNONYM_CATEGORIES`, in dict insertion order. -/
def SYNONYM_CATEGORIES : List (String × List String) :=
  [("omega", OMEGA_SYNONYMS),
   ("magnesium", MAGNESIUM_SYNONYMS),
   ("vitamin_c", VITAMIN_C_SYNONYMS),
   ("collagen", COLLAGEN_SYNONYMS),
   ("probiotics", PROBIOTICS_SYNONYMS),
   ("immunity", IMMUNITY_SYNONYMS)]

/-- Does some synonym of the category occur in the lowercased query?
(the inner `for synonym in synonyms: if synonym in query_lower` loop). -/
def categoryMatches (ql : String) (c : String × List String) : Bool :=
  c.2.any (fun syn => pyIn syn ql)

/-- Source `expand_query_with_synonyms`: collect the synonym lists of every
matching category, and when any matched, append the deduplicated terms
to the query.  Python's `list(set(...))` has unspecified order; it is
modelled by `List.dedup`, which has the same elements. -/
def expand_query_with_synonyms (query : String) : String :=
  let ql := pyLower query
  let expandedTerms := (SYNONYM_CATEGORIES.filter (categoryMatches ql)).flatMap Prod.snd
  if expandedTerms ≠ [] then
    let uniqueTerms := expandedTerms.dedup
    query ++ " " ++ String.intercalate " " uniqueTerms
  else query

/-! ### `SearchService.search_products` with exception semantics -/

/-- The Python exceptions that can arise inside the search service. -/
inductive PyExc
  | fileNotFound
  | requestTimeout
  | requestConnectionError
  | requestHTTPError
  | valueError
deriving DecidableEq, Repr

/-- Outcome of the HTTP request made by `_search_via_backend`. -/
inductive BackendOutcome
  | ok (products : List Product)
  | fail (e : PyExc)
deriving DecidableEq, Repr

/-- State of the local `knowledge_base.json` file. -/
inductive KBFile
  | missing
  | malformed
  | ok (kb : List Product)
deriving DecidableEq, Repr

/-- Opening and parsing `knowledge_base.json`: raises
`FileNotFoundError` when missing, some other exception when the JSON is
malformed. -/
def openKnowledgeBase : KBFile → Except PyExc (List Product)
  | .missing => .error .fileNotFound
  | .malformed => .error .valueError
  | .ok kb => .ok kb

/-- The request made by `_search_via_backend`. -/
def backendRequest : BackendOutcome → Except PyExc (List Product)
  | .ok ps => .ok ps
  | .fail e => .error e

/-- Source `_search_local`: its `try` body opens the knowledge base and scores
it; `except FileNotFoundError` and `except Exception` both return `[]`,
so no exception escapes. -/
def searchLocalE (file : KBFile) (query : String) (limit : Nat) :
    Except PyExc (List SearchResult) :=
  match openKnowledgeBase file with
  | .ok kb => .ok (searchLocal kb query limit)
  | .error _ => .ok []

/-- Source `_search_via_backend`: a successful request yields results with
fixed score `0.8` and relevance `"high"`; every handler
(`Timeout`, `ConnectionError`, `HTTPError`, `Exception`) falls back to
`_search_local`. -/
def searchViaBackendE (outcome : BackendOutcome) (file : KBFile) (query : String)
    (limit : Nat) : Except PyExc (List SearchResult) :=
  match backendRequest outcome with
  | .ok ps => .ok (ps.map (fun p => ⟨p, mkRat 8 10, "high"⟩))
  | .error _ => searchLocalE file query limit

/-- Source `SearchService.search_products`: expand the query, try the backend,
fall back to local search when the backend path returns no results; the
outer `except Exception` retries `_search_local` with the original query
and its inner bare `except` returns `[]`.  `category` only feeds the
backend request payload. -/
def search_products (outcome : BackendOutcome) (file : KBFile) (query : String)
    (category : Option String) (limit : Nat) : Except PyExc (List SearchResult) :=
  let expanded := expand_query_with_synonyms query
  let body : Except PyExc (List SearchResult) :=
    match searchViaBackendE outcome file expanded limit with
    | .error e => .error e
    | .ok results =>
      if results ≠ [] then .ok results
      else searchLocalE file expanded limit
  match body with
  | .ok l => .ok l
  | .error _ =>
    match searchLocalE file query limit with
    | .ok l => .ok l
    | .error _ => .ok []

/-! ### Prompt manager (`frontend/services/prompts/prompt_manager.py`) -/

/-- Modelled from the spec: the module `prompts/product_selection.py`
defining this template string is not among the sources; the spec says an
intent classification selects one of a fixed set of prompt templates. -/
def PRODUCT_SELECTION_PROMPT : String := "PRODUCT_SELECTION_PROMPT"

/-- Modelled from the spec: `prompts/product_inquiry.py` is not among
the sources. -/
def PRODUCT_INQUIRY_PROMPT : String := "PRODUCT_INQUIRY_PROMPT"

/-- Modelled from the spec: `prompts/general_question.py` is not among
the sources. -/
def GENERAL_QUESTION_PROMPT : String := "GENERAL_QUESTION_PROMPT"

/-- Modelled from the spec: `prompts/product_comparison.py` is not among
the sources. -/
def PRODUCT_COMPARISON_PROMPT : String := "PRODUCT_COMPARISON_PROMPT"

/-- Modelled from the spec: `prompts/composition_inquiry.py` is not
among the sources. -/
def COMPOSITION_INQUIRY_PROMPT : String := "COMPOSITION_INQUIRY_PROMPT"

/-- Modelled from the spec: `prompts/complaint.py` is not among the
sources. -/
def COMPLAINT_PROMPT : String := "COMPLAINT_PROMPT"

/-- The `IntentType` enum. -/
inductive IntentType
  | product_selection
  | product_inquiry
  | general_question
  | product_comparison
  | composition_inquiry
  | complaint
  | unknown
deriving DecidableEq, Repr

/-- The `self.prompts` dict built in `PromptManager.__init__`
(no entry for `UNKNOWN`). -/
def promptsDict : IntentType → Option String
  | .product_selection => some PRODUCT_SELECTION_PROMPT
  | .product_inquiry => some PRODUCT_INQUIRY_PROMPT
  | .general_question => some GENERAL_QUESTION_PROMPT
  | .product_comparison => some PRODUCT_COMPARISON_PROMPT
  | .composition_inquiry => some COMPOSITION_INQUIRY_PROMPT
  | .complaint => some COMPLAINT_PROMPT
  | .unknown => none

/-- Source `PromptManager.get_prompt`: the default prompt for `None` or
`UNKNOWN`, otherwise `self.prompts.get(intent, self.default_prompt)`. -/
def get_prompt (intent : Option IntentType) : String :=
  match intent with
  | none => GENERAL_QUESTION_PROMPT
  | some .unknown => GENERAL_QUESTION_PROMPT
  | some i => (promptsDict i).getD GENERAL_QUESTION_PROMPT

def comparison_keywords : List String :=
  ["отличие", "различие", "разница", "сравни",
   "или", "vs", "чем отличается", "что лучше"]

def composition_keywords : List String :=
  ["состав", "компонент", "ингредиент", "входит",
   "содержит", "из чего"]

def selection_keywords : List String :=
  ["нужно", "нужен", "нужна", "посоветуй", "порекомендуй",
   "что принимать", "что пить", "помоги выбрать", "какой продукт",
   "для иммунитета", "от простуды", "для печени"]

def inquiry_keywords : List String :=
  ["расскажи о", "что такое", "информация о", "свойства",
   "для чего", "зачем", "как работает"]

def complaint_keywords : List String :=
  ["не помогает", "не работает", "плохо", "хуже",
   "побочный эффект", "аллергия", "не подошло"]

/-- Does any keyword of the list occur in the lowercased query? -/
def kwMatch (kws : List String) (ql : String) : Bool :=
  kws.any (fun k => pyIn k ql)

/-- Source `PromptManager.get_prompt_by_keywords`: the five keyword lists are
checked by substring containment against the lowercased message, in the
fixed order comparison, composition, selection, inquiry, complaint; the
first match wins, and the general-question prompt is the fallback. -/
def get_prompt_by_keywords (query : String) : String :=
  let ql := pyLower query
  if kwMatch comparison_keywords ql then get_prompt (some .product_comparison)
  else if kwMatch composition_keywords ql then get_prompt (some .composition_inquiry)
  else if kwMatch selection_keywords ql then get_prompt (some .product_selection)
  else if kwMatch inquiry_keywords ql then get_prompt (some .product_inquiry)
  else if kwMatch complaint_keywords ql then get_prompt (some .complaint)
  else get_prompt (some .general_question)

/-! ### Response truncation (`llm.py`, `limit_response_length`) -/

/-- The boundary-seeking cut of `response[:max_length]`: cut after the
last space/punctuation when it lies past `max_length * 0.8`, otherwise
cut at the last space when one exists at a positive index.  (For the
integer comparison `last_break > 999 * 0.8` the exact rational and the
IEEE double agree.) -/
def lrlBranch (response : String) (max_length : Nat) : String :=
  let truncated := strTake response max_length
  let lastSpace := pyRfindChar truncated ' '
  let lastPunct := max (pyRfindChar truncated '.')
    (max (pyRfindChar truncated '!') (pyRfindChar truncated '?'))
  let lastBreak := max lastSpace lastPunct
  if mkRat (8 * (max_length : Int)) 10 < mkRat lastBreak 1 then
    strTake truncated (lastBreak + 1).toNat
  else if lastSpace > 0 then strTake truncated lastSpace.toNat
  else truncated

/-- The tail of `limit_response_length`: strip, add `"..."` unless the
text already ends in sentence punctuation, and hard-cut to
`max_length - 3` plus `"..."` when still too long. -/
def lrlFinish (t : String) (max_length : Nat) : String :=
  let t1 := pyStrip t
  let t2 := if endsPunct t1 then t1 else t1 ++ "..."
  if t2.length > max_length then strTake t2 (max_length - 3) ++ "..." else t2

/-- Source `limit_response_length` from `llm.py`. -/
def limit_response_length (response : String) (max_length : Nat) : String :=
  if response.length ≤ max_length then response
  else lrlFinish (lrlBranch response max_length) max_length

/-! ### Cache service (`frontend/services/cache_service.py`) -/

/-- The `CacheEntry` dataclass; `created_at` and the TTL are measured in
minutes on an abstract clock. -/
structure CacheEntry where
  key : String
  value : String
  created_at : Nat
  hits : Nat
deriving DecidableEq, Repr

/-- Source `CacheEntry.is_expired`: `datetime.now() > created_at + timedelta(minutes=ttl)`. -/
def isExpired (e : CacheEntry) (ttl now : Nat) : Bool := now > e.created_at + ttl

/-- The `CacheService` state. -/
structure CacheState where
  max_size : Nat
  ttl_minutes : Nat
  cache : List (String × CacheEntry)
deriving DecidableEq, Repr

/-- Source `CacheService._normalize_key`: `key.lower().strip()`. -/
def normalizeKey (key : String) : String := pyStrip (pyLower key)

/-- Source `CacheService.get`: miss on absent key; expired entries are deleted
and miss; hits bump the entry's counter and return its value. -/
def cache_get (st : CacheState) (key : String) (now : Nat) : Option String × CacheState :=
  match pyDictFind st.cache (normalizeKey key) with
  | none => (none, st)
  | some entry =>
    if isExpired entry st.ttl_minutes now then
      (none, { st with cache := pyDictErase st.cache (normalizeKey key) })
    else
      (some entry.value,
        { st with cache := (pyDictInsert st.cache (normalizeKey key)
            { entry with hits := entry.hits + 1 }) })

/-- Helper of `_evict_least_used`: Python `min(keys, key=...)` keeps the
first key attaining the minimal hit count. -/
def leastUsedAux : List (String × CacheEntry) → String × Nat → String × Nat
  | [], best => best
  | p :: rest, best =>
    leastUsedAux rest (if p.2.hits < best.2 then (p.1, p.2.hits) else best)

/-- Source `CacheService._evict_least_used`: drop the entry whose key minimises
the hit count (no-op on an empty cache). -/
def evictLeastUsed (d : List (String × CacheEntry)) : List (String × CacheEntry) :=
  match d with
  | [] => []
  | p :: rest => pyDictErase (p :: rest) (leastUsedAux rest (p.1, p.2.hits)).1

/-- Source `CacheService.set`: short keys (stripped length below 10) are not
cached; at capacity the least-used entry is evicted first; the new entry
starts with zero hits. -/
def cache_set (st : CacheState) (key value : String) (now : Nat) : CacheState :=
  if (pyStrip key).length < 10 then st
  else
    { st with cache := (pyDictInsert
        (if st.cache.length ≥ st.max_size then evictLeastUsed st.cache else st.cache)
        (normalizeKey key) ⟨normalizeKey key, value, now, 0⟩) }

/-- Source `CacheService.clear`. -/
def cache_clear (st : CacheState) : CacheState := { st with cache := [] }

/-- Source `CacheService.clear_expired`: delete every expired entry. -/
def cache_clear_expired (st : CacheState) (now : Nat) : CacheState :=
  { st with cache := st.cache.filter (fun p => !(isExpired p.2 st.ttl_minutes now)) }

/-- The public cache operations, each tagged with the clock value at
which it runs. -/
inductive CacheOp
  | get (key : String) (now : Nat)
  | set (key value : String) (now : Nat)
  | clear
  | clearExpired (now : Nat)

def cacheStep (st : CacheState) : CacheOp → CacheState
  | .get k now => (cache_get st k now).2
  | .set k v now => cache_set st k v now
  | .clear => cache_clear st
  | .clearExpired now => cache_clear_expired st now

/-- The module-level `cache_service = CacheService()` (max_size 100,
ttl 60 minutes). -/
def cacheInit : CacheState := ⟨100, 60, []⟩

def cacheRun (ops : List CacheOp) : CacheState := ops.foldl cacheStep cacheInit

/-- Invariant of the global cache service: configured maximum 100, at
most 100 entries, and unique dict keys. -/
def cacheInvariant (st : CacheState) : Prop :=
  st.max_size = 100 ∧ st.cache.length ≤ 100 ∧ (st.cache.map Prod.fst).Nodup

/-- 100 `set` operations with distinct cacheable keys, filling the cache
to capacity. -/
def opsFill : List CacheOp :=
  (List.range 100).map (fun i => CacheOp.set ("aaaaaaaaaa" ++ toString i) "v" 0)

/-! ### Conversation service (`frontend/services/conversation_service.py`) -/

/-- The `ConversationMessage` dataclass (timestamp on an abstract
clock; metadata as a string dict). -/
structure ConversationMessage where
  role : String
  content : String
  timestamp : Nat
  metadata : List (String × String)
deriving DecidableEq, Repr

/-- The `ConversationContext` dataclass; products are JSON dicts. -/
structure ConversationContext where
  user_id : Int
  messages : List ConversationMessage
  current_topic : Option String
  last_products : List (List (String × String))
  preferences : List (String × String)
deriving DecidableEq, Repr

/-- Source `ConversationContext(user_id=u)` with all defaults. -/
def emptyContext (u : Int) : ConversationContext := ⟨u, [], none, [], []⟩

/-- The `ConversationService` state. -/
structure ConvState where
  max_history : Nat
  conversations : List (Int × ConversationContext)
deriving DecidableEq, Repr

/-- Source `get_or_create_context`: create an empty context on first access,
return the stored context. -/
def get_or_create_context (st : ConvState) (u : Int) : ConversationContext × ConvState :=
  match pyDictFind st.conversations u with
  | some ctx => (ctx, st)
  | none =>
    (emptyContext u,
      { st with conversations := (pyDictInsert st.conversations u (emptyContext u)) })

/-- The common mutation pattern of the service: fetch (or create) the
context of `u` and update it in place. -/
def withContext (st : ConvState) (u : Int) (f : ConversationContext → ConversationContext) :
    ConvState :=
  { (get_or_create_context st u).2 with conversations :=
      (pyDictInsert (get_or_create_context st u).2.conversations u
        (f (get_or_create_context st u).1)) }

/-- Source `ConversationMessage(role, content, metadata=metadata or {})`. -/
def mkMessage (role content : String) (ts : Nat)
    (md : Option (List (String × String))) : ConversationMessage :=
  ⟨role, content, ts, md.getD []⟩

/-- Python `l[-n:]` for `n > 0`: the last `n` elements. -/
def lastN {α : Type} (n : Nat) (l : List α) : List α := l.drop (l.length - n)

/-- Source `add_message`: append, then trim to the last `max_history` messages
when the bound is exceeded. -/
def add_message (st : ConvState) (u : Int) (role content : String) (ts : Nat)
    (md : Option (List (String × String))) : ConvState :=
  withContext st u (fun ctx =>
    { ctx with messages :=
        (if (ctx.messages ++ [mkMessage role content ts md]).length > st.max_history
         then lastN st.max_history (ctx.messages ++ [mkMessage role content ts md])
         else ctx.messages ++ [mkMessage role content ts md]) })

/-- Source `get_history`: `messages[-limit:]` for a truthy limit, the whole
history otherwise (also creates the context). -/
def get_history (st : ConvState) (u : Int) (limit : Option Nat) :
    List ConversationMessage × ConvState :=
  match limit with
  | some l =>
    if l ≠ 0 then (lastN l (get_or_create_context st u).1.messages, (get_or_create_context st u).2)
    else ((get_or_create_context st u).1.messages, (get_or_create_context st u).2)
  | none => ((get_or_create_context st u).1.messages, (get_or_create_context st u).2)

/-- Source `set_topic`. -/
def set_topic (st : ConvState) (u : Int) (topic : String) : ConvState :=
  withContext st u (fun ctx => { ctx with current_topic := some topic })

/-- Source `set_last_products`. -/
def set_last_products (st : ConvState) (u : Int) (ps : List (List (String × String))) :
    ConvState :=
  withContext st u (fun ctx => { ctx with last_products := ps })

/-- Source `get_last_products` (creates the context and reads it). -/
def get_last_products (st : ConvState) (u : Int) :
    List (List (String × String)) × ConvState :=
  ((get_or_create_context st u).1.last_products, (get_or_create_context st u).2)

/-- Python `d.update(new)` on a string dict. -/
def pyDictUpdate (d new : List (String × String)) : List (String × String) :=
  new.foldl (fun acc p => pyDictInsert acc p.1 p.2) d

/-- Source `update_preferences`: merge the given dict into the stored one. -/
def update_preferences (st : ConvState) (u : Int) (prefs : List (String × String)) :
    ConvState :=
  withContext st u (fun ctx => { ctx with preferences := pyDictUpdate ctx.preferences prefs })

/-- Source `get_preferences` (creates the context and reads it). -/
def get_preferences (st : ConvState) (u : Int) : List (String × String) × ConvState :=
  ((get_or_create_context st u).1.preferences, (get_or_create_context st u).2)

/-- Source `clear_context`: delete the context when present. -/
def clear_context (st : ConvState) (u : Int) : ConvState :=
  if (pyDictFind st.conversations u).isSome then
    { st with conversations := (pyDictErase st.conversations u) }
  else st

/-- The public conversation operations.  The read operations
(`get_history`, `get_context_summary`, `get_last_products`,
`get_preferences`, `export_conversation`) all call
`get_or_create_context` and have no further state effect; `get_stats`
reads without creating anything. -/
inductive ConvOp
  | getOrCreate (u : Int)
  | addMessage (u : Int) (role content : String) (ts : Nat)
      (md : Option (List (String × String)))
  | getHistory (u : Int) (limit : Option Nat)
  | getContextSummary (u : Int)
  | setTopic (u : Int) (topic : String)
  | setLastProducts (u : Int) (ps : List (List (String × String)))
  | getLastProducts (u : Int)
  | updatePreferences (u : Int) (prefs : List (String × String))
  | getPreferences (u : Int)
  | clearContext (u : Int)
  | exportConversation (u : Int)
  | getStats

/-- State effect of each operation. -/
def convStep (st : ConvState) : ConvOp → ConvState
  | .getOrCreate u => (get_or_create_context st u).2
  | .addMessage u role content ts md => add_message st u role content ts md
  | .getHistory u limit => (get_history st u limit).2
  | .getContextSummary u => (get_or_create_context st u).2
  | .setTopic u topic => set_topic st u topic
  | .setLastProducts u ps => set_last_products st u ps
  | .getLastProducts u => (get_last_products st u).2
  | .updatePreferences u prefs => update_preferences st u prefs
  | .getPreferences u => (get_preferences st u).2
  | .clearContext u => clear_context st u
  | .exportConversation u => (get_or_create_context st u).2
  | .getStats => st

/-- The module-level `conversation_service = ConversationService()`
(`max_history = 10`). -/
def convInit : ConvState := ⟨10, []⟩

def convRun (ops : List ConvOp) : ConvState := ops.foldl convStep convInit

/-- The message history of `u` as stored (empty when no context). -/
def messagesOf (st : ConvState) (u : Int) : List ConversationMessage :=
  ((pyDictFind st.conversations u).map ConversationContext.messages).getD []

/-- Invariant of the global conversation service: history cap 10, and
every stored context holds at most 10 messages. -/
def convInvariant (st : ConvState) : Prop :=
  st.max_history = 10 ∧ ∀ p ∈ st.conversations, p.2.messages.length ≤ 10

/-- Ten messages for user 7, filling the history to the cap. -/
def opsConv : List ConvOp :=
  (List.range 10).map (fun i => ConvOp.addMessage 7 "user" "hi" i none)

/-- The user id an operation acts on (`get_stats` touches no user). -/
def opUser : ConvOp → Option Int
  | .getOrCreate u => some u
  | .addMessage u _ _ _ _ => some u
  | .getHistory u _ => some u
  | .getContextSummary u => some u
  | .setTopic u _ => some u
  | .setLastProducts u _ => some u
  | .getLastProducts u => some u
  | .updatePreferences u _ => some u
  | .getPreferences u => some u
  | .clearContext u => some u
  | .exportConversation u => some u
  | .getStats => none

/-- A state with contexts for users 1 and 2. -/
def stExample : ConvState :=
  convRun [ConvOp.addMessage 1 "user" "a" 0 none, ConvOp.setTopic 2 "омега"]

/-! ### Admin broadcast (`admin.py`, `confirm_broadcast`) -/

/-- The delivery loop of `confirm_broadcast`: one `send_copy` per user
id in `user_started` (a set, hence distinct ids), counting successes
and failures; an exception for one user is caught and the loop
continues.  `deliver` abstracts the outcome of each Telegram call; the
returned log lists the attempts in iteration order. -/
def broadcastRun (deliver : Int → Bool) : List Int → List (Int × Bool) × (Nat × Nat)
  | [] => ([], (0, 0))
  | uid :: rest =>
    ((uid, deliver uid) :: (broadcastRun deliver rest).1,
      if deliver uid then
        ((broadcastRun deliver rest).2.1 + 1, (broadcastRun deliver rest).2.2)
      else
        ((broadcastRun deliver rest).2.1, (broadcastRun deliver rest).2.2 + 1))

/-- A one-product catalog for the C1 witness. -/
def kbExample : List Product :=
  [⟨"Омега-3", "жирные кислоты", "", "витамины", ["сердце"], "рыбий жир"⟩]

/-! ### Theorems -/

theorem pyDictFind_insert_self {α β : Type} [BEq α] [LawfulBEq α]
    (d : List (α × β)) (k : α) (v : β) :
    pyDictFind (pyDictInsert d k v) k = some v := by
  unfold pyDictInsert
  split
  · next h =>
    induction d with
    | nil => simp [List.find?_isSome] at h
    | cons p rest ih =>
      by_cases hp : p.1 == k
      · simp [pyDictFind, List.find?, hp]
      · have h' : (rest.find? (fun q => q.1 == k)).isSome := by
          simpa [List.find?, hp] using h
        simpa [pyDictFind, List.find?, hp] using ih h'
  · next h =>
    induction d with
    | nil => simp [pyDictFind, List.find?]
    | cons p rest ih =>
      by_cases hp : p.1 == k
      · exact absurd (by simp [List.find?, hp]) h
      · have h' : ¬ (rest.find? (fun q => q.1 == k)).isSome = true := by
          simpa [List.find?, hp] using h
        simpa [pyDictFind, List.find?, hp] using ih h'

theorem pyDictFind_insert_ne {α β : Type} [BEq α] [LawfulBEq α]
    (d : List (α × β)) (k k' : α) (v : β) (hne : k' ≠ k) :
    pyDictFind (pyDictInsert d k v) k' = pyDictFind d k' := by
  unfold pyDictInsert
  split
  · next h =>
    clear h
    induction d with
    | nil => simp
    | cons p rest ih =>
      by_cases hp : p.1 == k
      · have hpk : p.1 = k := by simpa using hp
        have : ¬ (k == k') = true := by simp [beq_iff_eq]; exact fun h => hne h.symm
        have hpk' : ¬ (p.1 == k') = true := by simp [hpk, beq_iff_eq]; exact fun h => hne h.symm
        simp [pyDictFind, List.find?, hp, this, hpk'] at *
        exact ih
      · by_cases hq : p.1 == k'
        · simp [pyDictFind, List.find?, hp, hq]
        · simp [pyDictFind, List.find?, hp, hq] at *
          exact ih
  · next h =>
    clear h
    induction d with
    | nil =>
      have : ¬ (k == k') = true := by simp [beq_iff_eq]; exact fun h => hne h.symm
      simp [pyDictFind, List.find?, this]
    | cons p rest ih =>
      by_cases hq : p.1 == k'
      · simp [pyDictFind, List.find?, hq]
      · simp [pyDictFind, List.find?, hq] at *
        exact ih

theorem pyDictFind_erase_ne {α β : Type} [BEq α] [LawfulBEq α]
    (d : List (α × β)) (k k' : α) (hne : k' ≠ k) :
    pyDictFind (pyDictErase d k) k' = pyDictFind d k' := by
  induction d with
  | nil => simp [pyDictErase, pyDictFind]
  | cons p rest ih =>
    by_cases hp : p.1 == k
    · have hpk : p.1 = k := by simpa using hp
      have hpk' : ¬ (p.1 == k') = true := by simp [hpk, beq_iff_eq]; exact fun h => hne h.symm
      simp [pyDictErase, List.eraseP_cons, hp, pyDictFind, List.find?, hpk']
    · by_cases hq : p.1 == k'
      · simp [pyDictErase, List.eraseP_cons, hp, pyDictFind, List.find?, hq]
      · simp [pyDictErase, List.eraseP_cons, hp, pyDictFind, List.find?, hq] at *
        exact ih

theorem ratMin_eq_min (a b : ℚ) : ratMin a b = min a b := by
  simp [ratMin, min_def]

theorem normScore_eq (r : Nat) :
    normScore r = min (95/100 : ℚ) (3/10 + (5/100) * (r : ℚ)) := by
  unfold normScore
  rw [ratMin_eq_min, Rat.mkRat_eq_div, Rat.mkRat_eq_div]
  congr 1
  push_cast
  ring

/-- C1: for every query and limit, `_search_local` returns at most
`limit` results, sorted by score in non-increasing order; the ranked
list it truncates is exactly the catalog products with positive keyword
relevance score; every returned result has positive relevance score,
score `min(0.95, 0.3 + 0.05 * relevance)`, and relevance label `"high"`
exactly when that score exceeds `0.7`. -/
theorem C1_search_local (kb : List Product) (query : String) (limit : Nat) :
    (searchLocal kb query limit).length ≤ limit ∧
    List.Sorted scoreGe (searchLocal kb query limit) ∧
    (∃ ranked : List SearchResult,
      searchLocal kb query limit = ranked.take limit ∧
      List.Sorted scoreGe ranked ∧
      ranked.Perm ((kb.filter
        (fun p => 0 < relevanceScore (pySplitWs (pyLower query)) p)).map
          (mkLocalResult (pySplitWs (pyLower query))))) ∧
    (∀ r ∈ searchLocal kb query limit,
      0 < relevanceScore (pySplitWs (pyLower query)) r.product ∧
      r.score = min (95/100)
        (3/10 + (5/100) * (relevanceScore (pySplitWs (pyLower query)) r.product : ℚ)) ∧
      (r.relevance = "high" ↔ 7/10 < r.score)) := by
  have hsorted := List.sorted_insertionSort scoreGe
    ((kb.filter (fun p => 0 < relevanceScore (pySplitWs (pyLower query)) p)).map
      (mkLocalResult (pySplitWs (pyLower query))))
  refine ⟨?_, ?_, ?_, ?_⟩
  · exact List.length_take_le limit _
  · exact List.Pairwise.sublist (List.take_sublist _ _) hsorted
  · exact ⟨_, rfl, hsorted, List.perm_insertionSort _ _⟩
  · intro r hr
    have hr1 : r ∈ List.insertionSort scoreGe
        ((kb.filter (fun p => 0 < relevanceScore (pySplitWs (pyLower query)) p)).map
          (mkLocalResult (pySplitWs (pyLower query)))) :=
      List.take_subset _ _ hr
    rw [List.mem_insertionSort] at hr1
    obtain ⟨p, hp, hrp⟩ := List.mem_map.mp hr1
    obtain ⟨-, hpos⟩ := List.mem_filter.mp hp
    have hpos' : 0 < relevanceScore (pySplitWs (pyLower query)) p := by
      exact of_decide_eq_true hpos
    subst hrp
    refine ⟨hpos', ?_, ?_⟩
    · show normScore (relevanceScore (pySplitWs (pyLower query)) p) = _
      exact normScore_eq _
    · show (if normScore (relevanceScore (pySplitWs (pyLower query)) p) > mkRat 7 10
          then "high" else "medium") = "high" ↔
          7/10 < normScore (relevanceScore (pySplitWs (pyLower query)) p)
      rw [(by norm_num [Rat.mkRat_eq_div] : (mkRat 7 10 : ℚ) = 7/10)]
      split
      · next h => exact ⟨fun _ => h, fun _ => rfl⟩
      · next h =>
        constructor
        · intro hfalse
          exact absurd hfalse (by decide)
        · intro hgt
          exact absurd hgt h

/-- C5: the query is returned unchanged when no synonym of any category
occurs in the lowercased query; otherwise the result is the original
query, a space, and a space-separated deduplicated list of terms
containing every synonym of every matched category. -/
theorem C5_expand_query (query : String) :
    (SYNONYM_CATEGORIES.all (fun c => !(categoryMatches (pyLower query) c)) = true →
      expand_query_with_synonyms query = query) ∧
    (SYNONYM_CATEGORIES.any (categoryMatches (pyLower query)) = true →
      ∃ terms : List String,
        expand_query_with_synonyms query =
          query ++ " " ++ String.intercalate " " terms ∧
        terms.Nodup ∧
        ∀ c ∈ SYNONYM_CATEGORIES, categoryMatches (pyLower query) c = true →
          ∀ s ∈ c.2, s ∈ terms) := by
  constructor
  · intro hnone
    have hfilt : SYNONYM_CATEGORIES.filter (categoryMatches (pyLower query)) = [] := by
      rw [List.filter_eq_nil_iff]
      intro c hc
      have := (List.all_eq_true.mp hnone) c hc
      simpa using this
    simp [expand_query_with_synonyms, hfilt]
  · intro hsome
    obtain ⟨c, hc, hmatch⟩ := List.any_eq_true.mp hsome
    have hcnonempty : c.2 ≠ [] := by
      revert hc
      have : ∀ x ∈ SYNONYM_CATEGORIES, x.2 ≠ [] := by decide
      exact fun hc => this c hc
    have hcfilt : c ∈ SYNONYM_CATEGORIES.filter (categoryMatches (pyLower query)) :=
      List.mem_filter.mpr ⟨hc, hmatch⟩
    have hne : (SYNONYM_CATEGORIES.filter (categoryMatches (pyLower query))).flatMap Prod.snd ≠ [] := by
      intro hnil
      obtain ⟨s, hs⟩ := List.exists_mem_of_ne_nil c.2 hcnonempty
      have : s ∈ (SYNONYM_CATEGORIES.filter (categoryMatches (pyLower query))).flatMap Prod.snd :=
        List.mem_flatMap.mpr ⟨c, hcfilt, hs⟩
      rw [hnil] at this
      exact absurd this (List.not_mem_nil s)
    refine ⟨((SYNONYM_CATEGORIES.filter (categoryMatches (pyLower query))).flatMap Prod.snd).dedup,
      ?_, List.nodup_dedup _, ?_⟩
    · simp only [expand_query_with_synonyms]
      rw [if_pos hne]
    · intro c' hc' hmatch' s hs
      exact List.mem_dedup.mpr
        (List.mem_flatMap.mpr ⟨c', List.mem_filter.mpr ⟨hc', hmatch'⟩, hs⟩)

/-- C7: `search_products` never propagates an exception (it always
returns a list), and when the backend request fails and the local
knowledge-base file does not exist it returns the empty list. -/
theorem C7_search_products_total (outcome : BackendOutcome) (file : KBFile)
    (query : String) (category : Option String) (limit : Nat) :
    (∃ l : List SearchResult, search_products outcome file query category limit = .ok l) ∧
    (∀ e : PyExc, outcome = .fail e → file = .missing →
      search_products outcome file query category limit = .ok []) := by
  constructor
  · have hloc : ∀ f q n, ∃ l, searchLocalE f q n = Except.ok l := by
      intro f q n
      cases f <;> exact ⟨_, rfl⟩
    cases outcome with
    | ok ps =>
      by_cases h : ps.map (fun p => (⟨p, mkRat 8 10, "high"⟩ : SearchResult)) = []
      · obtain ⟨l, hl⟩ := hloc file (expand_query_with_synonyms query) limit
        exact ⟨l, by simp [search_products, searchViaBackendE, backendRequest, h, hl]⟩
      · exact ⟨ps.map (fun p => ⟨p, mkRat 8 10, "high"⟩),
          by simp [search_products, searchViaBackendE, backendRequest, h]⟩
    | fail e =>
      obtain ⟨l, hl⟩ := hloc file (expand_query_with_synonyms query) limit
      by_cases h : l = []
      · subst h
        exact ⟨[], by simp [search_products, searchViaBackendE, backendRequest, hl]⟩
      · exact ⟨l, by simp [search_products, searchViaBackendE, backendRequest, hl, h]⟩
  · intro e ho hf
    subst ho
    subst hf
    simp [search_products, searchViaBackendE, backendRequest, searchLocalE, openKnowledgeBase]

/-- Witness for C7 at a concrete failing backend and missing file. -/
theorem C7_witness :
    search_products (.fail .requestTimeout) .missing "витамин с" none 10 = .ok [] :=
  (C7_search_products_total (.fail .requestTimeout) .missing "витамин с" none 10).2
    .requestTimeout rfl rfl

/-- C4: `get_prompt_by_keywords` checks the keyword lists in the fixed
order comparison, composition, product-selection, product-inquiry,
complaint, returns the template of the first matching category, and the
general-question template when nothing matches; `get_prompt` returns the
general-question template for `None` and `UNKNOWN`. -/
theorem C4_prompt_selection (query : String) :
    (kwMatch comparison_keywords (pyLower query) = true →
      get_prompt_by_keywords query = PRODUCT_COMPARISON_PROMPT) ∧
    (kwMatch comparison_keywords (pyLower query) = false →
      kwMatch composition_keywords (pyLower query) = true →
      get_prompt_by_keywords query = COMPOSITION_INQUIRY_PROMPT) ∧
    (kwMatch comparison_keywords (pyLower query) = false →
      kwMatch composition_keywords (pyLower query) = false →
      kwMatch selection_keywords (pyLower query) = true →
      get_prompt_by_keywords query = PRODUCT_SELECTION_PROMPT) ∧
    (kwMatch comparison_keywords (pyLower query) = false →
      kwMatch composition_keywords (pyLower query) = false →
      kwMatch selection_keywords (pyLower query) = false →
      kwMatch inquiry_keywords (pyLower query) = true →
      get_prompt_by_keywords query = PRODUCT_INQUIRY_PROMPT) ∧
    (kwMatch comparison_keywords (pyLower query) = false →
      kwMatch composition_keywords (pyLower query) = false →
      kwMatch selection_keywords (pyLower query) = false →
      kwMatch inquiry_keywords (pyLower query) = false →
      kwMatch complaint_keywords (pyLower query) = true →
      get_prompt_by_keywords query = COMPLAINT_PROMPT) ∧
    (kwMatch comparison_keywords (pyLower query) = false →
      kwMatch composition_keywords (pyLower query) = false →
      kwMatch selection_keywords (pyLower query) = false →
      kwMatch inquiry_keywords (pyLower query) = false →
      kwMatch complaint_keywords (pyLower query) = false →
      get_prompt_by_keywords query = GENERAL_QUESTION_PROMPT) ∧
    get_prompt none = GENERAL_QUESTION_PROMPT ∧
    get_prompt (some .unknown) = GENERAL_QUESTION_PROMPT := by
  refine ⟨?_, ?_, ?_, ?_, ?_, ?_, rfl, rfl⟩
  · intro h1
    simp [get_prompt_by_keywords, h1, get_prompt, promptsDict]
  · intro h1 h2
    simp [get_prompt_by_keywords, h1, h2, get_prompt, promptsDict]
  · intro h1 h2 h3
    simp [get_prompt_by_keywords, h1, h2, h3, get_prompt, promptsDict]
  · intro h1 h2 h3 h4
    simp [get_prompt_by_keywords, h1, h2, h3, h4, get_prompt, promptsDict]
  · intro h1 h2 h3 h4 h5
    simp [get_prompt_by_keywords, h1, h2, h3, h4, h5, get_prompt, promptsDict]
  · intro h1 h2 h3 h4 h5
    simp [get_prompt_by_keywords, h1, h2, h3, h4, h5, get_prompt, promptsDict]

/-- Witness for C4: a message containing the comparison keyword
`"или"` and, lowercased, nothing from the earlier-checked lists. -/
theorem C4_witness :
    kwMatch comparison_keywords (pyLower "Шалфей или Ромашка") = true ∧
    get_prompt_by_keywords "Шалфей или Ромашка" = PRODUCT_COMPARISON_PROMPT := by
  have h : kwMatch comparison_keywords (pyLower "Шалфей или Ромашка") = true := by decide
  exact ⟨h, (C4_prompt_selection "Шалфей или Ромашка").1 h⟩

theorem mem_pyStripCL {c : Char} {cs : List Char} (h : c ∈ pyStripCL cs) : c ∈ cs := by
  unfold pyStripCL at h
  rw [List.mem_reverse] at h
  have h1 := (List.dropWhile_sublist isPySpace).subset h
  rw [List.mem_reverse] at h1
  exact (List.dropWhile_sublist isPySpace).subset h1

theorem mem_lrlBranch {c : Char} {s : String} {n : Nat}
    (h : c ∈ (lrlBranch s n).data) : c ∈ s.data.take n := by
  simp only [lrlBranch] at h
  split at h
  · exact List.take_subset _ _ h
  · split at h
    · exact List.take_subset _ _ h
    · exact h

theorem strTake_length_le (s : String) (n : Nat) : (strTake s n).length ≤ n := by
  show (s.data.take n).length ≤ n
  exact List.length_take_le n s.data

theorem append_dots_length (s : String) : (s ++ "...").length = s.length + 3 := by
  show (s.data ++ ['.', '.', '.']).length = s.data.length + 3
  simp

/-- The final hard cut of `limit_response_length` caps the length at 999. -/
theorem hardcut_length (t2 : String) :
    (if t2.length > 999 then strTake t2 (999 - 3) ++ "..." else t2).length ≤ 999 := by
  split
  · next h =>
    have h1 : (strTake t2 (999 - 3)).length ≤ 996 := strTake_length_le t2 996
    have h2 := append_dots_length (strTake t2 (999 - 3))
    omega
  · next h => omega

theorem lrlFinish_length (t : String) : (lrlFinish t 999).length ≤ 999 :=
  hardcut_length _

theorem strEndsWith_append_dots (s : String) :
    strEndsWith (s ++ "...") "..." = true := by
  have hdata : (s ++ "...").data = s.data ++ ['.', '.', '.'] := rfl
  simp [strEndsWith, hdata, leadsCL]

theorem endsPunct_spec {t : String} (h : endsPunct t = true) :
    ∃ c, (c = '.' ∨ c = '!' ∨ c = '?') ∧ t.data.getLast? = some c := by
  unfold endsPunct at h
  rcases hl : t.data.getLast? with - | c
  · rw [hl] at h
    exact absurd h (by simp)
  · rw [hl] at h
    refine ⟨c, ?_, rfl⟩
    rcases Bool.or_eq_true_iff.mp h with h1 | h2
    · rcases Bool.or_eq_true_iff.mp h1 with ha | hb
      · exact Or.inl (by simpa using ha)
      · exact Or.inr (Or.inl (by simpa using hb))
    · exact Or.inr (Or.inr (by simpa using h2))

/-- C3: with limit 999 the truncation always returns at most 999
characters, returns the input unchanged exactly when it has at most 999
characters, and a truncated result either ends with the suffix `"..."`
or ends at sentence punctuation taken from the first 999 characters. -/
theorem C3_limit_response_length (s : String) :
    (limit_response_length s 999).length ≤ 999 ∧
    (limit_response_length s 999 = s ↔ s.length ≤ 999) ∧
    (999 < s.length →
      strEndsWith (limit_response_length s 999) "..." = true ∨
      ∃ c, (c = '.' ∨ c = '!' ∨ c = '?') ∧
        (limit_response_length s 999).data.getLast? = some c ∧
        c ∈ s.data.take 999) := by
  by_cases hlen : s.length ≤ 999
  · rw [limit_response_length, if_pos hlen]
    refine ⟨hlen, by simpa using hlen, ?_⟩
    intro hgt
    exact absurd hlen (by omega)
  · have hres : limit_response_length s 999 = lrlFinish (lrlBranch s 999) 999 := by
      rw [limit_response_length, if_neg hlen]
    have hbound : (limit_response_length s 999).length ≤ 999 := by
      rw [hres]
      exact lrlFinish_length _
    refine ⟨hbound, ?_, ?_⟩
    · constructor
      · intro heq
        have : (limit_response_length s 999).length = s.length := by rw [heq]
        omega
      · intro h
        exact absurd h hlen
    · intro hgt
      rw [hres]
      by_cases hp : endsPunct (pyStrip (lrlBranch s 999)) = true
      · have hfin : lrlFinish (lrlBranch s 999) 999 =
            (if (pyStrip (lrlBranch s 999)).length > 999
              then strTake (pyStrip (lrlBranch s 999)) (999 - 3) ++ "..."
              else pyStrip (lrlBranch s 999)) := by
          simp [lrlFinish, hp]
        rw [hfin]
        split
        · exact Or.inl (strEndsWith_append_dots _)
        · obtain ⟨c, hc, hlast⟩ := endsPunct_spec hp
          refine Or.inr ⟨c, hc, hlast, ?_⟩
          have hmem : c ∈ (pyStrip (lrlBranch s 999)).data :=
            List.mem_of_getLast?_eq_some hlast
          exact mem_lrlBranch (mem_pyStripCL hmem)
      · have hfin : lrlFinish (lrlBranch s 999) 999 =
            (if (pyStrip (lrlBranch s 999) ++ "...").length > 999
              then strTake (pyStrip (lrlBranch s 999) ++ "...") (999 - 3) ++ "..."
              else pyStrip (lrlBranch s 999) ++ "...") := by
          simp [lrlFinish, hp]
        rw [hfin]
        split
        · exact Or.inl (strEndsWith_append_dots _)
        · exact Or.inl (strEndsWith_append_dots _)

/-- Witness for C3 applied to a concrete over-long string: 1000 copies
of `'a'`, which exceeds the limit, so the truncated branch is exercised. -/
theorem C3_witness :
    999 < (String.mk (List.replicate 1000 'a')).length ∧
    (strEndsWith (limit_response_length (String.mk (List.replicate 1000 'a')) 999) "..." = true ∨
      ∃ c, (c = '.' ∨ c = '!' ∨ c = '?') ∧
        (limit_response_length (String.mk (List.replicate 1000 'a')) 999).data.getLast? = some c ∧
        c ∈ (String.mk (List.replicate 1000 'a')).data.take 999) := by
  have h1 : (String.mk (List.replicate 1000 'a')).length = 1000 := by
    show (List.replicate 1000 'a').length = 1000
    rw [List.length_replicate]
  have hlen : 999 < (String.mk (List.replicate 1000 'a')).length := by omega
  exact ⟨hlen, (C3_limit_response_length (String.mk (List.replicate 1000 'a'))).2.2 hlen⟩

/-- C6: setting a key whose stripped form has at least 10 characters and
reading back (under the same normalized key) before the TTL elapses
returns the stored value, from any prior state. -/
theorem C6_cache_get_after_set (st : CacheState) (key key' value : String) (now now' : Nat)
    (hlen : 10 ≤ (pyStrip key).length)
    (hnorm : normalizeKey key' = normalizeKey key)
    (httl : now' ≤ now + st.ttl_minutes) :
    (cache_get (cache_set st key value now) key' now').1 = some value := by
  have hnotshort : ¬ ((pyStrip key).length < 10) := by omega
  simp only [cache_set, if_neg hnotshort]
  simp only [cache_get, hnorm]
  rw [pyDictFind_insert_self]
  have hexp : isExpired ⟨normalizeKey key, value, now, 0⟩ st.ttl_minutes now' = false := by
    simp only [isExpired]
    simp only [gt_iff_lt, decide_eq_false_iff_not, not_lt]
    omega
  simp [hexp]

/-- Witness for C6: a fresh service, a 12-character key, read back with
different casing and surrounding spaces at the last non-expired minute. -/
theorem C6_witness :
    10 ≤ (pyStrip "omega-3 fish").length ∧
    normalizeKey "  OMEGA-3 FISH " = normalizeKey "omega-3 fish" ∧
    60 ≤ 0 + cacheInit.ttl_minutes ∧
    (cache_get (cache_set cacheInit "omega-3 fish" "answer" 0) "  OMEGA-3 FISH " 60).1 =
      some "answer" := by
  refine ⟨by decide, by decide, by decide, ?_⟩
  exact C6_cache_get_after_set cacheInit "omega-3 fish" "  OMEGA-3 FISH " "answer" 0 60
    (by decide) (by decide) (by decide)

/-- The chosen pair is either the seed or comes from the list. -/
theorem leastUsedAux_choice (l : List (String × CacheEntry)) :
    ∀ best : String × Nat,
      leastUsedAux l best = best ∨ ∃ p ∈ l, leastUsedAux l best = (p.1, p.2.hits) := by
  induction l with
  | nil => intro best; exact Or.inl rfl
  | cons p rest ih =>
    intro best
    simp only [leastUsedAux]
    rcases ih (if p.2.hits < best.2 then (p.1, p.2.hits) else best) with h | ⟨q, hq, h⟩
    · rw [h]
      split
      · exact Or.inr ⟨p, List.mem_cons_self p rest, rfl⟩
      · exact Or.inl rfl
    · exact Or.inr ⟨q, List.mem_cons_of_mem _ hq, h⟩

/-- The chosen hit count is minimal among the seed and the list. -/
theorem leastUsedAux_min (l : List (String × CacheEntry)) :
    ∀ best : String × Nat,
      (leastUsedAux l best).2 ≤ best.2 ∧ ∀ p ∈ l, (leastUsedAux l best).2 ≤ p.2.hits := by
  induction l with
  | nil => intro best; exact ⟨le_refl _, by simp⟩
  | cons p rest ih =>
    intro best
    simp only [leastUsedAux]
    obtain ⟨h1, h2⟩ := ih (if p.2.hits < best.2 then (p.1, p.2.hits) else best)
    constructor
    · refine le_trans h1 ?_
      split
      · next hlt => exact le_of_lt hlt
      · exact le_refl _
    · intro q hq
      rcases List.mem_cons.mp hq with hq0 | hq'
      · subst hq0
        refine le_trans h1 ?_
        split
        · exact le_refl _
        · next hlt => omega
      · exact h2 q hq'

/-- Running `_evict_least_used` on a nonempty cache removes an entry whose hit
count is minimal. -/
theorem evictLeastUsed_spec (p0 : String × CacheEntry) (rest : List (String × CacheEntry)) :
    ∃ q ∈ p0 :: rest,
      (∀ r ∈ p0 :: rest, q.2.hits ≤ r.2.hits) ∧
      evictLeastUsed (p0 :: rest) = pyDictErase (p0 :: rest) q.1 := by
  have hmin := leastUsedAux_min rest (p0.1, p0.2.hits)
  rcases leastUsedAux_choice rest (p0.1, p0.2.hits) with h | ⟨q, hq, h⟩
  · refine ⟨p0, List.mem_cons_self _ _, ?_, ?_⟩
    · intro r hr
      rcases List.mem_cons.mp hr with hr0 | hr'
      · subst hr0; exact le_refl _
      · have := hmin.2 r hr'
        rw [h] at this
        exact this
    · show pyDictErase (p0 :: rest) (leastUsedAux rest (p0.1, p0.2.hits)).1 = _
      rw [h]
  · refine ⟨q, List.mem_cons_of_mem _ hq, ?_, ?_⟩
    · intro r hr
      rcases List.mem_cons.mp hr with hr0 | hr'
      · subst hr0
        have := hmin.1
        rw [h] at this
        exact this
      · have := hmin.2 r hr'
        rw [h] at this
        exact this
    · show pyDictErase (p0 :: rest) (leastUsedAux rest (p0.1, p0.2.hits)).1 = _
      rw [h]

theorem length_evictLeastUsed (p0 : String × CacheEntry) (rest : List (String × CacheEntry)) :
    (evictLeastUsed (p0 :: rest)).length + 1 = (p0 :: rest).length := by
  obtain ⟨q, hq, -, heq⟩ := evictLeastUsed_spec p0 rest
  rw [heq]
  exact List.length_eraseP_add_one hq (by simp)

theorem keys_evictLeastUsed_sublist (d : List (String × CacheEntry)) :
    List.Sublist ((evictLeastUsed d).map Prod.fst) (d.map Prod.fst) := by
  cases d with
  | nil => exact List.Sublist.refl _
  | cons p rest => exact (List.eraseP_sublist _).map Prod.fst

theorem length_pyDictInsert_le {α β : Type} [BEq α] (d : List (α × β)) (k : α) (v : β) :
    (pyDictInsert d k v).length ≤ d.length + 1 := by
  unfold pyDictInsert
  split
  · simp
  · simp

theorem keys_pyDictInsert_mem {α β : Type} [BEq α] [LawfulBEq α] (d : List (α × β))
    (k : α) (v : β) (h : (d.find? (fun p => p.1 == k)).isSome) :
    (pyDictInsert d k v).map Prod.fst = d.map Prod.fst := by
  unfold pyDictInsert
  rw [if_pos h]
  clear h
  induction d with
  | nil => rfl
  | cons p rest ih =>
    by_cases hp : p.1 == k
    · have hpk : p.1 = k := by simpa using hp
      simp [hp, hpk, ih]
    · simp [hp, ih]

theorem keys_pyDictInsert_not_mem {α β : Type} [BEq α] (d : List (α × β)) (k : α) (v : β)
    (h : ¬ (d.find? (fun p => p.1 == k)).isSome = true) :
    (pyDictInsert d k v).map Prod.fst = d.map Prod.fst ++ [k] := by
  unfold pyDictInsert
  rw [if_neg h]
  simp

theorem nodup_keys_pyDictInsert {α β : Type} [BEq α] [LawfulBEq α] (d : List (α × β))
    (k : α) (v : β) (hnd : (d.map Prod.fst).Nodup) :
    ((pyDictInsert d k v).map Prod.fst).Nodup := by
  by_cases h : (d.find? (fun p => p.1 == k)).isSome
  · rw [keys_pyDictInsert_mem d k v h]
    exact hnd
  · rw [keys_pyDictInsert_not_mem d k v h]
    have hk : k ∉ d.map Prod.fst := by
      intro hmem
      obtain ⟨p, hp, hpk⟩ := List.mem_map.mp hmem
      exact h (List.find?_isSome.mpr ⟨p, hp, by simp [hpk]⟩)
    simp [List.nodup_append, hnd, hk]

theorem length_pyDictInsert_find {α β : Type} [BEq α] (d : List (α × β)) (k : α) (v : β)
    (h : (d.find? (fun p => p.1 == k)).isSome) :
    (pyDictInsert d k v).length = d.length := by
  unfold pyDictInsert
  rw [if_pos h]
  simp

theorem cacheStep_invariant (st : CacheState) (op : CacheOp) (h : cacheInvariant st) :
    cacheInvariant (cacheStep st op) := by
  obtain ⟨hmax, hlen, hnd⟩ := h
  cases op with
  | get k now =>
    show cacheInvariant (cache_get st k now).2
    unfold cache_get
    cases hfind : pyDictFind st.cache (normalizeKey k) with
    | none => exact ⟨hmax, hlen, hnd⟩
    | some e =>
      have hsome : (st.cache.find? (fun p => p.1 == normalizeKey k)).isSome := by
        unfold pyDictFind at hfind
        cases hf : st.cache.find? (fun p => p.1 == normalizeKey k) with
        | none => rw [hf] at hfind; exact absurd hfind (by simp)
        | some q => simp [hf]
      dsimp only
      split
      · refine ⟨hmax, ?_, ?_⟩
        · exact le_trans (List.Sublist.length_le ((List.eraseP_sublist _))) hlen
        · exact List.Nodup.sublist ((List.eraseP_sublist _).map Prod.fst) hnd
      · refine ⟨hmax, ?_, ?_⟩
        · show (pyDictInsert st.cache (normalizeKey k) _).length ≤ 100
          rw [length_pyDictInsert_find _ _ _ hsome]
          exact hlen
        · exact nodup_keys_pyDictInsert _ _ _ hnd
  | set k v now =>
    show cacheInvariant (cache_set st k v now)
    unfold cache_set
    split
    · exact ⟨hmax, hlen, hnd⟩
    · by_cases hcap : st.cache.length ≥ st.max_size
      · rw [if_pos hcap]
        cases hc : st.cache with
        | nil =>
          rw [hc, hmax] at hcap
          exact absurd hcap (by simp)
        | cons p rest =>
          have hevlen : (evictLeastUsed (p :: rest)).length + 1 = (p :: rest).length :=
            length_evictLeastUsed p rest
          have hevnd : ((evictLeastUsed (p :: rest)).map Prod.fst).Nodup := by
            refine List.Nodup.sublist (keys_evictLeastUsed_sublist _) ?_
            rw [← hc]; exact hnd
          refine ⟨hmax, ?_, ?_⟩
          · show (pyDictInsert (evictLeastUsed (p :: rest)) (normalizeKey k)
              ⟨normalizeKey k, v, now, 0⟩).length ≤ 100
            have h1 := length_pyDictInsert_le (evictLeastUsed (p :: rest))
              (normalizeKey k) (⟨normalizeKey k, v, now, 0⟩ : CacheEntry)
            have h2 : (p :: rest).length ≤ 100 := by rw [← hc]; exact hlen
            omega
          · exact nodup_keys_pyDictInsert _ _ _ hevnd
      · rw [if_neg hcap]
        rw [hmax] at hcap
        refine ⟨hmax, ?_, nodup_keys_pyDictInsert _ _ _ hnd⟩
        show (pyDictInsert st.cache (normalizeKey k) ⟨normalizeKey k, v, now, 0⟩).length ≤ 100
        have h1 := length_pyDictInsert_le st.cache (normalizeKey k)
          (⟨normalizeKey k, v, now, 0⟩ : CacheEntry)
        omega
  | clear =>
    show cacheInvariant (cache_clear st)
    exact ⟨hmax, by simp [cache_clear], by simp [cache_clear]⟩
  | clearExpired now =>
    show cacheInvariant (cache_clear_expired st now)
    refine ⟨hmax, ?_, ?_⟩
    · exact le_trans (List.Sublist.length_le (List.filter_sublist _)) hlen
    · exact List.Nodup.sublist ((List.filter_sublist _).map Prod.fst) hnd

theorem cacheRun_invariant (ops : List CacheOp) : cacheInvariant (cacheRun ops) := by
  suffices h : ∀ st, cacheInvariant st → cacheInvariant (ops.foldl cacheStep st) by
    exact h cacheInit ⟨rfl, by simp [cacheInit], by simp [cacheInit]⟩
  induction ops with
  | nil => intro st h; exact h
  | cons op rest ih =>
    intro st h
    exact ih _ (cacheStep_invariant st op h)

/-- C9: in every reachable cache state the cache holds at most 100
(`max_size`) entries, and `set` on a full cache with a cacheable key
first evicts an entry with minimal recorded hits, then inserts the new
entry. -/
theorem C9_cache_eviction (ops : List CacheOp) (key value : String) (now : Nat) :
    (cacheRun ops).cache.length ≤ 100 ∧
    ((cacheRun ops).cache.length = 100 → 10 ≤ (pyStrip key).length →
      ∃ k e, (k, e) ∈ (cacheRun ops).cache ∧
        (∀ p ∈ (cacheRun ops).cache, e.hits ≤ p.2.hits) ∧
        (cache_set (cacheRun ops) key value now).cache =
          pyDictInsert (pyDictErase (cacheRun ops).cache k) (normalizeKey key)
            ⟨normalizeKey key, value, now, 0⟩) := by
  obtain ⟨hmax, hlen, hnd⟩ := cacheRun_invariant ops
  refine ⟨hlen, ?_⟩
  intro h100 hkey
  cases hc : (cacheRun ops).cache with
  | nil => rw [hc] at h100; exact absurd h100 (by simp)
  | cons p rest =>
    obtain ⟨q, hq, hmin, heq⟩ := evictLeastUsed_spec p rest
    refine ⟨q.1, q.2, ?_, ?_, ?_⟩
    · simpa using hq
    · intro r hr; exact hmin r hr
    · have hns : ¬ ((pyStrip key).length < 10) := by omega
      have hcap : (cacheRun ops).cache.length ≥ (cacheRun ops).max_size := by
        rw [hmax, h100]
      unfold cache_set
      rw [if_neg hns]
      dsimp only
      rw [if_pos hcap, hc, heq]

set_option maxRecDepth 100000 in
/-- Witness for C9: after `opsFill` the cache is full, so the next
cacheable `set` evicts a minimal-hits entry. -/
theorem C9_witness :
    (cacheRun opsFill).cache.length = 100 ∧
    10 ≤ (pyStrip "what about collagen").length ∧
    (∃ k e, (k, e) ∈ (cacheRun opsFill).cache ∧
      (∀ p ∈ (cacheRun opsFill).cache, e.hits ≤ p.2.hits) ∧
      (cache_set (cacheRun opsFill) "what about collagen" "v" 7).cache =
        pyDictInsert (pyDictErase (cacheRun opsFill).cache k)
          (normalizeKey "what about collagen")
          ⟨normalizeKey "what about collagen", "v", 7, 0⟩) := by
  have h100 : (cacheRun opsFill).cache.length = 100 := by decide
  have hkey : 10 ≤ (pyStrip "what about collagen").length := by decide
  exact ⟨h100, hkey,
    (C9_cache_eviction opsFill "what about collagen" "v" 7).2 h100 hkey⟩

theorem mem_pyDictInsert {α β : Type} [BEq α] {d : List (α × β)} {k : α} {v : β}
    {q : α × β} (h : q ∈ pyDictInsert d k v) : q ∈ d ∨ q = (k, v) := by
  unfold pyDictInsert at h
  split at h
  · obtain ⟨p, hp, hq⟩ := List.mem_map.mp h
    by_cases ht : (p.1 == k) = true
    · rw [if_pos ht] at hq
      exact Or.inr hq.symm
    · rw [if_neg ht] at hq
      exact Or.inl (hq ▸ hp)
  · rcases List.mem_append.mp h with h1 | h2
    · exact Or.inl h1
    · exact Or.inr (by simpa using h2)

theorem pyDictFind_mem {α β : Type} [BEq α] {d : List (α × β)} {k : α} {v : β}
    (h : pyDictFind d k = some v) : ∃ k', (k', v) ∈ d := by
  unfold pyDictFind at h
  cases hf : d.find? (fun p => p.1 == k) with
  | none => rw [hf] at h; exact absurd h (by simp)
  | some p =>
    rw [hf] at h
    have hp : p ∈ d := List.mem_of_find?_eq_some hf
    have hv : p.2 = v := by simpa using h
    exact ⟨p.1, by rw [← hv]; exact hp⟩

theorem goc_fst (st : ConvState) (u : Int) :
    (get_or_create_context st u).1 = (pyDictFind st.conversations u).getD (emptyContext u) := by
  unfold get_or_create_context
  cases hf : pyDictFind st.conversations u with
  | some ctx => rfl
  | none => rfl

theorem goc_messages (st : ConvState) (u : Int) :
    (get_or_create_context st u).1.messages = messagesOf st u := by
  rw [goc_fst]
  unfold messagesOf
  cases pyDictFind st.conversations u with
  | some ctx => rfl
  | none => rfl

theorem find_goc_self (st : ConvState) (u : Int) :
    pyDictFind (get_or_create_context st u).2.conversations u =
      some (get_or_create_context st u).1 := by
  unfold get_or_create_context
  cases hf : pyDictFind st.conversations u with
  | some ctx => exact hf
  | none => exact pyDictFind_insert_self _ _ _

theorem find_goc_ne (st : ConvState) (u v : Int) (hv : v ≠ u) :
    pyDictFind (get_or_create_context st u).2.conversations v =
      pyDictFind st.conversations v := by
  unfold get_or_create_context
  cases hf : pyDictFind st.conversations u with
  | some ctx => rfl
  | none => exact pyDictFind_insert_ne _ _ _ _ hv

theorem find_withContext_self (st : ConvState) (u : Int)
    (f : ConversationContext → ConversationContext) :
    pyDictFind (withContext st u f).conversations u =
      some (f (get_or_create_context st u).1) := by
  unfold withContext
  exact pyDictFind_insert_self _ _ _

theorem find_withContext_ne (st : ConvState) (u v : Int)
    (f : ConversationContext → ConversationContext) (hv : v ≠ u) :
    pyDictFind (withContext st u f).conversations v = pyDictFind st.conversations v := by
  unfold withContext
  rw [pyDictFind_insert_ne _ _ _ _ hv]
  exact find_goc_ne st u v hv

theorem mem_goc_snd {st : ConvState} {u : Int} {p : Int × ConversationContext}
    (h : p ∈ (get_or_create_context st u).2.conversations) :
    p ∈ st.conversations ∨ p = (u, emptyContext u) := by
  revert h
  unfold get_or_create_context
  cases hf : pyDictFind st.conversations u with
  | some ctx => exact fun h => Or.inl h
  | none => exact fun h => mem_pyDictInsert h

theorem mem_withContext {st : ConvState} {u : Int}
    {f : ConversationContext → ConversationContext} {p : Int × ConversationContext}
    (h : p ∈ (withContext st u f).conversations) :
    p ∈ st.conversations ∨ p = (u, emptyContext u) ∨
      p = (u, f (get_or_create_context st u).1) := by
  unfold withContext at h
  rcases mem_pyDictInsert h with h1 | h2
  · rcases mem_goc_snd h1 with h3 | h4
    · exact Or.inl h3
    · exact Or.inr (Or.inl h4)
  · exact Or.inr (Or.inr h2)

theorem goc_fst_bound {st : ConvState} (u : Int)
    (h : ∀ p ∈ st.conversations, p.2.messages.length ≤ 10) :
    (get_or_create_context st u).1.messages.length ≤ 10 := by
  rw [goc_fst]
  cases hf : pyDictFind st.conversations u with
  | some ctx =>
    obtain ⟨k', hk'⟩ := pyDictFind_mem hf
    exact h (k', ctx) hk'
  | none => simp [emptyContext]

theorem goc_invariant {st : ConvState} (u : Int) (h : convInvariant st) :
    convInvariant (get_or_create_context st u).2 := by
  obtain ⟨hmax, hb⟩ := h
  refine ⟨?_, ?_⟩
  · unfold get_or_create_context
    cases pyDictFind st.conversations u with
    | some ctx => exact hmax
    | none => exact hmax
  · intro p hp
    rcases mem_goc_snd hp with h1 | h2
    · exact hb p h1
    · rw [h2]; simp [emptyContext]

theorem withContext_invariant {st : ConvState} (u : Int)
    (f : ConversationContext → ConversationContext) (h : convInvariant st)
    (hf : ∀ ctx : ConversationContext,
      ctx.messages.length ≤ 10 → (f ctx).messages.length ≤ 10) :
    convInvariant (withContext st u f) := by
  obtain ⟨hmax, hb⟩ := h
  refine ⟨?_, ?_⟩
  · unfold withContext get_or_create_context
    cases pyDictFind st.conversations u with
    | some ctx => exact hmax
    | none => exact hmax
  · intro p hp
    rcases mem_withContext hp with h1 | h2 | h3
    · exact hb p h1
    · rw [h2]; simp [emptyContext]
    · rw [h3]
      exact hf _ (goc_fst_bound u hb)

theorem length_lastN {α : Type} (n : Nat) (l : List α) :
    (lastN n l).length = l.length - (l.length - n) := by
  simp [lastN]

theorem convStep_invariant (st : ConvState) (op : ConvOp) (h : convInvariant st) :
    convInvariant (convStep st op) := by
  obtain ⟨hmax, hb⟩ := h
  cases op with
  | getOrCreate u => exact goc_invariant u ⟨hmax, hb⟩
  | addMessage u role content ts md =>
    refine withContext_invariant u _ ⟨hmax, hb⟩ ?_
    intro ctx hctx
    dsimp only
    split
    · next hgt =>
      rw [length_lastN, hmax]
      omega
    · next hgt =>
      rw [hmax] at hgt
      simp only [List.length_append, List.length_cons, List.length_nil] at hgt ⊢
      omega
  | getHistory u limit =>
    have hg := goc_invariant u ⟨hmax, hb⟩
    show convInvariant (get_history st u limit).2
    unfold get_history
    cases limit with
    | some l =>
      dsimp only
      split
      · exact hg
      · exact hg
    | none => exact hg
  | getContextSummary u => exact goc_invariant u ⟨hmax, hb⟩
  | setTopic u topic =>
    exact withContext_invariant u _ ⟨hmax, hb⟩ (fun ctx h => h)
  | setLastProducts u ps =>
    exact withContext_invariant u _ ⟨hmax, hb⟩ (fun ctx h => h)
  | getLastProducts u => exact goc_invariant u ⟨hmax, hb⟩
  | updatePreferences u prefs =>
    exact withContext_invariant u _ ⟨hmax, hb⟩ (fun ctx h => h)
  | getPreferences u => exact goc_invariant u ⟨hmax, hb⟩
  | clearContext u =>
    show convInvariant (clear_context st u)
    unfold clear_context
    split
    · refine ⟨hmax, ?_⟩
      intro p hp
      exact hb p ((List.eraseP_sublist _).subset hp)
    · exact ⟨hmax, hb⟩
  | exportConversation u => exact goc_invariant u ⟨hmax, hb⟩
  | getStats => exact ⟨hmax, hb⟩

theorem convRun_invariant (ops : List ConvOp) : convInvariant (convRun ops) := by
  suffices h : ∀ st, convInvariant st → convInvariant (ops.foldl convStep st) by
    exact h convInit ⟨rfl, by simp [convInit]⟩
  induction ops with
  | nil => intro st h; exact h
  | cons op rest ih =>
    intro st h
    exact ih _ (convStep_invariant st op h)

theorem messagesOf_bound {st : ConvState} (h : convInvariant st) (u : Int) :
    (messagesOf st u).length ≤ 10 := by
  unfold messagesOf
  cases hf : pyDictFind st.conversations u with
  | none => simp
  | some ctx =>
    obtain ⟨k', hk'⟩ := pyDictFind_mem hf
    simpa using h.2 (k', ctx) hk'

theorem messagesOf_add_self (st : ConvState) (u : Int) (role content : String)
    (ts : Nat) (md : Option (List (String × String))) :
    messagesOf (add_message st u role content ts md) u =
      (if (messagesOf st u ++ [mkMessage role content ts md]).length > st.max_history
       then lastN st.max_history (messagesOf st u ++ [mkMessage role content ts md])
       else messagesOf st u ++ [mkMessage role content ts md]) := by
  unfold messagesOf add_message
  rw [find_withContext_self]
  simp only [Option.map_some', Option.getD_some]
  rw [goc_messages]
  rfl

/-- C8: in every reachable state every user's history holds at most 10
(`max_history`) messages, and an `add_message` that would exceed the
bound trims the history to exactly the 10 most recent messages in their
original order. -/
theorem C8_history_bound (ops : List ConvOp) (u : Int) (role content : String)
    (ts : Nat) (md : Option (List (String × String))) :
    (∀ v : Int, (messagesOf (convRun ops) v).length ≤ 10) ∧
    ((messagesOf (convRun ops) u).length = 10 →
      messagesOf (add_message (convRun ops) u role content ts md) u =
        (messagesOf (convRun ops) u).drop 1 ++ [mkMessage role content ts md] ∧
      (messagesOf (add_message (convRun ops) u role content ts md) u).length = 10) := by
  have hinv := convRun_invariant ops
  refine ⟨fun v => messagesOf_bound hinv v, ?_⟩
  intro h10
  have hcond : (messagesOf (convRun ops) u ++ [mkMessage role content ts md]).length >
      (convRun ops).max_history := by
    rw [hinv.1]
    simp [h10]
  rw [messagesOf_add_self, if_pos hcond, hinv.1]
  constructor
  · unfold lastN
    rw [List.length_append, h10]
    simp only [List.length_cons, List.length_nil]
    rw [show (10 : Nat) + 1 - 10 = 1 from rfl]
    rw [List.drop_append_of_le_length (by omega)]
  · unfold lastN
    rw [List.length_drop]
    rw [List.length_append, h10]
    simp

/-- Witness for C8: with a full history the next `add_message` drops the
oldest message. -/
theorem C8_witness :
    (messagesOf (convRun opsConv) 7).length = 10 ∧
    (messagesOf (add_message (convRun opsConv) 7 "user" "more" 10 none) 7 =
      (messagesOf (convRun opsConv) 7).drop 1 ++ [mkMessage "user" "more" 10 none] ∧
     (messagesOf (add_message (convRun opsConv) 7 "user" "more" 10 none) 7).length = 10) := by
  have h10 : (messagesOf (convRun opsConv) 7).length = 10 := by decide
  exact ⟨h10, (C8_history_bound opsConv 7 "user" "more" 10 none).2 h10⟩

theorem get_history_snd (st : ConvState) (u : Int) (limit : Option Nat) :
    (get_history st u limit).2 = (get_or_create_context st u).2 := by
  unfold get_history
  cases limit with
  | some l =>
    dsimp only
    split
    · rfl
    · rfl
  | none => rfl

/-- C10: every conversation operation invoked with user ID `u` leaves
the stored context of every other user `v ≠ u` unchanged. -/
theorem C10_frame (st : ConvState) (op : ConvOp) (u v : Int)
    (hu : opUser op = some u) (hv : v ≠ u) :
    pyDictFind (convStep st op).conversations v = pyDictFind st.conversations v := by
  cases op with
  | getOrCreate w =>
    have hw : w = u := by simpa [opUser] using hu
    subst hw
    exact find_goc_ne st w v hv
  | addMessage w role content ts md =>
    have hw : w = u := by simpa [opUser] using hu
    subst hw
    exact find_withContext_ne st w v _ hv
  | getHistory w limit =>
    have hw : w = u := by simpa [opUser] using hu
    subst hw
    show pyDictFind (get_history st w limit).2.conversations v = _
    rw [get_history_snd]
    exact find_goc_ne st w v hv
  | getContextSummary w =>
    have hw : w = u := by simpa [opUser] using hu
    subst hw
    exact find_goc_ne st w v hv
  | setTopic w topic =>
    have hw : w = u := by simpa [opUser] using hu
    subst hw
    exact find_withContext_ne st w v _ hv
  | setLastProducts w ps =>
    have hw : w = u := by simpa [opUser] using hu
    subst hw
    exact find_withContext_ne st w v _ hv
  | getLastProducts w =>
    have hw : w = u := by simpa [opUser] using hu
    subst hw
    exact find_goc_ne st w v hv
  | updatePreferences w prefs =>
    have hw : w = u := by simpa [opUser] using hu
    subst hw
    exact find_withContext_ne st w v _ hv
  | getPreferences w =>
    have hw : w = u := by simpa [opUser] using hu
    subst hw
    exact find_goc_ne st w v hv
  | clearContext w =>
    have hw : w = u := by simpa [opUser] using hu
    subst hw
    show pyDictFind (clear_context st w).conversations v = _
    unfold clear_context
    split
    · exact pyDictFind_erase_ne _ _ _ hv
    · rfl
  | exportConversation w =>
    have hw : w = u := by simpa [opUser] using hu
    subst hw
    exact find_goc_ne st w v hv
  | getStats => exact absurd hu (by simp [opUser])

/-- Witness for C10: clearing user 1 leaves user 2's context intact. -/
theorem C10_witness :
    opUser (ConvOp.clearContext 1) = some 1 ∧ (2 : Int) ≠ 1 ∧
    pyDictFind (convStep stExample (ConvOp.clearContext 1)).conversations 2 =
      pyDictFind stExample.conversations 2 := by
  exact ⟨rfl, by decide, C10_frame stExample (ConvOp.clearContext 1) 1 2 rfl (by decide)⟩

theorem broadcast_log (deliver : Int → Bool) (users : List Int) :
    (broadcastRun deliver users).1.map Prod.fst = users := by
  induction users with
  | nil => rfl
  | cons uid rest ih => simp [broadcastRun, ih]

theorem broadcast_counts (deliver : Int → Bool) (users : List Int) :
    (broadcastRun deliver users).2.1 + (broadcastRun deliver users).2.2 = users.length := by
  induction users with
  | nil => rfl
  | cons uid rest ih =>
    simp only [broadcastRun, List.length_cons]
    split
    · dsimp only
      omega
    · dsimp only
      omega

/-- C2: the broadcast attempts one copy per known user id (every id
appears exactly once in the attempt log, regardless of failures of
earlier deliveries), and `sent + failed` equals the number of user
ids. -/
theorem C2_broadcast (users : List Int) (deliver : Int → Bool) (hnd : users.Nodup) :
    (broadcastRun deliver users).1.map Prod.fst = users ∧
    (∀ u ∈ users, ((broadcastRun deliver users).1.map Prod.fst).count u = 1) ∧
    (broadcastRun deliver users).2.1 + (broadcastRun deliver users).2.2 = users.length := by
  refine ⟨broadcast_log deliver users, ?_, broadcast_counts deliver users⟩
  intro u hu
  rw [broadcast_log]
  exact List.count_eq_one_of_mem hnd hu

/-- Witness for C2: three users, delivery to user 22 fails, the other
two still get the copy and the report adds up. -/
theorem C2_witness :
    ([11, 22, 33] : List Int).Nodup ∧
    ((broadcastRun (fun u => !(u == 22)) [11, 22, 33]).1.map Prod.fst = [11, 22, 33] ∧
     (broadcastRun (fun u => !(u == 22)) [11, 22, 33]).2.1 +
       (broadcastRun (fun u => !(u == 22)) [11, 22, 33]).2.2 =
       ([11, 22, 33] : List Int).length) := by
  have hnd : ([11, 22, 33] : List Int).Nodup := by decide
  have h := C2_broadcast [11, 22, 33] (fun u => !(u == 22)) hnd
  exact ⟨hnd, h.1, h.2.2⟩

/-- Witness for C1 at a concrete catalog, query and limit. -/
theorem C1_witness :
    (searchLocal kbExample "омега" 5).length ≤ 5 ∧
    List.Sorted scoreGe (searchLocal kbExample "омега" 5) :=
  ⟨(C1_search_local kbExample "омега" 5).1, (C1_search_local kbExample "омега" 5).2.1⟩

/-- Witness for C5: a query containing the synonym `"omega"`. -/
theorem C5_witness :
    SYNONYM_CATEGORIES.any (categoryMatches (pyLower "хочу купить omega")) = true ∧
    (∃ terms : List String,
      expand_query_with_synonyms "хочу купить omega" =
        "хочу купить omega" ++ " " ++ String.intercalate " " terms ∧
      terms.Nodup ∧
      ∀ c ∈ SYNONYM_CATEGORIES, categoryMatches (pyLower "хочу купить omega") c = true →
        ∀ s ∈ c.2, s ∈ terms) := by
  have h : SYNONYM_CATEGORIES.any (categoryMatches (pyLower "хочу купить omega")) = true := by
    decide
  exact ⟨h, (C5_expand_query "хочу купить omega").2 h⟩

end AURBot
